import Mathlib

/-!
  Verification of the image I/O layer and exposure estimator of the
  `oidn` example code (`examples/image_io.cpp`, `autoexposure.cpp`).

  Shallow embedding conventions:
  * C++ `float` values are idealized as real numbers (`ℝ`); all claims
    about the numerical routines are settled over this idealization.
  * A PFM file whose header tokens (`magic`, `W`, `H`, `scale`) have been
    lexed successfully is represented by the structure `PFMFile`; the
    binary body is the list of 32-bit little-endian words decoded as
    floats, in the order they appear on disk (float ↔ 4-byte serialization
    is the identity on values, so the body is kept at word granularity:
    a body of fewer than `H*W*C*4` bytes allows fewer than `H*W*C`
    successful 4-byte reads, i.e. `body.length < H*W*C`).
  * Output files are represented structurally (`PFMFile` / `PPMFile`),
    wrapped in `FileData` for the dispatcher, instead of raw byte lists.
  * `std::ifstream` failure is modelled by the `Except` monad: a decode
    either returns a fully populated tensor or an error, exactly as a
    C++ exception aborts the routine before `return image`.
-/

namespace oidn

/-- Error values corresponding to the exceptions thrown by
`image_io.cpp`.  `invalidPFM` is `std::runtime_error("invalid PFM image")`
(the spec's `CorruptData`); `bigEndianUnsupported` is
`std::runtime_error("big-endian PFM images are not supported")` (the
spec's `UnsupportedFormat`); `invalidImageArgument` is
`std::invalid_argument("image must have 3 channels")`; `noExtension` is
`std::invalid_argument("filename has no extension")`; `unsupportedFormat`
is `std::invalid_argument("image format is not supported")`. -/
inductive ImageError where
  | cannotOpen
  | invalidPFM
  | bigEndianUnsupported
  | invalidImageArgument
  | noExtension
  | unsupportedFormat
  deriving DecidableEq

/-- The in-memory image tensor (`common/tensor.h` boundary): a dimension
list, an axis-order tag, and the flat element buffer (floats idealized
as reals, row-major exactly as indexed by the codecs). -/
structure Tensor where
  dims : List ℕ
  format : String
  data : List ℝ

/-- Number of dimensions, `Tensor::ndims()`. -/
def Tensor.ndims (t : Tensor) : ℕ := t.dims.length

/-- A PFM file whose whitespace-separated header tokens lexed
successfully (`file >> id`, `file >> W >> H`, `file >> scale` all
succeeded and the single separator byte was consumed): the magic token,
the declared width and height, the scale token, and the binary body as
the list of 4-byte words decoded as floats in on-disk order. -/
structure PFMFile where
  id : String
  W : ℕ
  H : ℕ
  scale : ℝ
  body : List ℝ

/-- A PPM file as produced by `saveImagePPM`: header fields and the raw
byte values of the body in on-disk order. -/
structure PPMFile where
  W : ℕ
  H : ℕ
  maxVal : ℕ
  body : List ℤ

/-- A saved file, tagged by its on-disk format (the bytes written by the
PFM encoder and the PPM encoder are never equal: the magics `PF` and
`P6` already differ). -/
inductive FileData where
  | pfm (f : PFMFile)
  | ppm (p : PPMFile)

/-- Channel count determined by the PFM magic token
(`image_io.cpp:82-87`): `PF` is 3-channel, `Pf` is 1-channel, anything
else is invalid. -/
def channelsOf (id : String) : Option ℕ :=
  if id = "PF" then some 3
  else if id = "Pf" then some 1
  else none

/-- The index permutation shared by the PFM reader and writer
(`image_io.cpp:115` and `:151`): both loops pair on-disk flat index
`(h*W + w)*C + c` with in-memory flat index `((H-1-h)*W + w)*C + c`,
i.e. they flip the row `j / (W*C)` of a flat index `j` and keep the
offset `j % (W*C)` inside the row. -/
def flipIndex (H W C j : ℕ) : ℕ :=
  (H - 1 - j / (W * C)) * (W * C) + j % (W * C)

/-- `loadImagePFM` (`image_io.cpp:71-124`) on a file whose header tokens
lexed: reject an unknown magic, reject a non-negative scale as
big-endian, then read `H*W*C` floats; sample `i` of the body lands at
in-memory index `flipIndex i` scaled by `|scale|`.  The stream's fail
bit — checked only after the whole loop — is set iff the body has fewer
than `H*W*C` words, in which case the routine throws instead of
returning the tensor. -/
noncomputable def loadImagePFM (f : PFMFile) : Except ImageError Tensor :=
  match channelsOf f.id with
  | none => .error .invalidPFM
  | some C =>
    if 0 ≤ f.scale then .error .bigEndianUnsupported
    else if f.body.length < f.H * f.W * C then .error .invalidPFM
    else .ok ⟨[f.H, f.W, C], "hwc",
      List.ofFn fun j : Fin (f.H * f.W * C) =>
        |f.scale| * f.body.getD (flipIndex f.H f.W C j) 0⟩

/-- `saveImagePFM` (`image_io.cpp:126-156`): requires a 3-channel `hwc`
tensor, writes magic `PF`, `W H`, the scale literal `-1.0`, then the
pixels bottom row first: on-disk word `i` is the element at in-memory
index `flipIndex i`. -/
noncomputable def saveImagePFM (t : Tensor) : Except ImageError PFMFile :=
  if t.ndims ≠ 3 ∨ t.dims.getD 2 0 ≠ 3 ∨ t.format ≠ "hwc" then
    .error .invalidImageArgument
  else
    .ok ⟨"PF", t.dims.getD 1 0, t.dims.getD 0 0, -1.0,
      List.ofFn fun i : Fin (t.dims.getD 0 0 * t.dims.getD 1 0 * 3) =>
        t.data.getD (flipIndex (t.dims.getD 0 0) (t.dims.getD 1 0) 3 i) 0⟩

/-- C truncation-toward-zero of a real to `int`, the behaviour of
`int(y)` for a float value `y` in range. -/
noncomputable def cIntTrunc (y : ℝ) : ℤ :=
  if 0 ≤ y then ⌊y⌋ else ⌈y⌉

/-- The per-sample byte computation of `saveImagePPM`
(`image_io.cpp:181-183`): gamma-encode, scale by 255, truncate to int,
clamp to `[0,255]`.  The gamma step `pow(x, 1/2.2)` is idealized as the
real power `x ^ (1/2.2)`; this matches the C `pow` for `x ≥ 0` (for
`x < 0` the C `pow` returns NaN, which the real idealization cannot
represent). -/
noncomputable def gammaByte (x : ℝ) : ℤ :=
  min (max (cIntTrunc (x ^ ((1 : ℝ) / 2.2) * 255)) 0) 255

/-- `saveImagePPM` (`image_io.cpp:158-187`): requires a 3-channel `hwc`
tensor, writes header `P6`, `W H`, `255`, then one byte per sample in
memory order (`image[i*C+c]`, no row flip). -/
noncomputable def saveImagePPM (t : Tensor) : Except ImageError PPMFile :=
  if t.ndims ≠ 3 ∨ t.dims.getD 2 0 ≠ 3 ∨ t.format ≠ "hwc" then
    .error .invalidImageArgument
  else
    .ok ⟨t.dims.getD 1 0, t.dims.getD 0 0, 255,
      List.ofFn fun k : Fin (t.dims.getD 1 0 * t.dims.getD 0 0 * 3) =>
        gammaByte (t.data.getD k 0)⟩

/-- The characters after the last `'.'` of a character list, or `none`
when no `'.'` occurs: the `filename.rfind('.')` / `substr(index+1)`
computation of `fileExtensionOf` (`image_io.cpp:189-195`). -/
def extAfterLastDot : List Char → Option (List Char)
  | [] => none
  | c :: rest =>
    match extAfterLastDot rest with
    | some e => some e
    | none => if c = '.' then some rest else none

/-- `fileExtensionOf` (`image_io.cpp:189-195`): substring after the last
dot, `invalid_argument` when the filename has no dot. -/
def fileExtensionOf (filename : String) : Except ImageError String :=
  match extAfterLastDot filename.toList with
  | none => .error .noExtension
  | some e => .ok (String.mk e)

/-- `loadImage` (`image_io.cpp:197-209`), compiled without
`HAS_OPEN_EXR`: dispatch on the extension; only `"pfm"` is supported.
The file's parsed contents are passed explicitly in place of the
filesystem read. -/
noncomputable def loadImage (filename : String) (contents : PFMFile) :
    Except ImageError Tensor :=
  match fileExtensionOf filename with
  | .error e => .error e
  | .ok fmt =>
    if fmt = "pfm" then loadImagePFM contents
    else .error .unsupportedFormat

/-- `saveImage` (`image_io.cpp:211-223`), compiled without
`HAS_OPEN_EXR`: dispatch on the extension.  As in the source, the
`"pfm"` branch calls `saveImagePPM` (line 220), not `saveImagePFM`. -/
noncomputable def saveImage (t : Tensor) (filename : String) :
    Except ImageError FileData :=
  match fileExtensionOf filename with
  | .error e => .error e
  | .ok fmt =>
    if fmt = "pfm" then
      match saveImagePPM t with
      | .error e => .error e
      | .ok p => .ok (.ppm p)
    else .error .unsupportedFormat

/-- The luminance weights of `autoexposure.cpp:21-24`. -/
noncomputable def luminance (r g b : ℝ) : ℝ :=
  0.212671 * r + 0.715160 * g + 0.072169 * b

/-- The exposure estimator's input (`Data2D` of format `FLOAT3`): a
height × width grid of RGB float pixels, `get h w` being the three
consecutive floats at row `h`, column `w`. -/
structure Data2D where
  height : ℕ
  width : ℕ
  get : ℕ → ℕ → ℝ × ℝ × ℝ

/-- Luminance of one pixel of the view. -/
noncomputable def pixelLum (input : Data2D) (h w : ℕ) : ℝ :=
  luminance (input.get h w).1 (input.get h w).2.1 (input.get h w).2.2

/-- The pixel luminances in the row-major order in which
`autoexposure` traverses them (`h` outer, `w` inner). -/
noncomputable def pixelList (input : Data2D) : List ℝ :=
  ((List.range input.height).map fun h =>
    (List.range input.width).map fun w => pixelLum input h w).flatten

/-- The body of the accumulation loop of `autoexposure`
(`autoexposure.cpp:46-50`): luminances above `1e-7` add their `log2`
to the running sum and bump the count; others are skipped. -/
noncomputable def accumStep (s : ℝ × ℕ) (L : ℝ) : ℝ × ℕ :=
  if 1e-7 < L then (s.1 + Real.logb 2 L, s.2 + 1) else s

/-- The `(sum, count)` pair computed by the reduction of
`autoexposure.cpp:33-57`.  The `tbb::parallel_reduce` over row ranges
with pairwise `(+,+)` joins is modelled by its sequential semantics —
over the reals the combination is exactly associative, so every
partitioning yields this fold. -/
noncomputable def accumulate (input : Data2D) : ℝ × ℕ :=
  (pixelList input).foldl accumStep (0, 0)

/-- `autoexposure` (`autoexposure.cpp:26-60`): `key / 2^(sum/count)`
with `key = 0.18` when any pixel qualified, else `1`. -/
noncomputable def autoexposure (input : Data2D) : ℝ :=
  if 0 < (accumulate input).2 then
    0.18 / (2 : ℝ) ^ ((accumulate input).1 / ((accumulate input).2 : ℝ))
  else 1

/-- Quotient of a flat index `a * K + m` with in-row offset `m < K`. -/
theorem flat_div {a K m : ℕ} (hm : m < K) : (a * K + m) / K = a := by
  have hK : 0 < K := Nat.lt_of_le_of_lt (Nat.zero_le m) hm
  rw [Nat.add_comm, Nat.mul_comm, Nat.add_mul_div_left _ _ hK,
    Nat.div_eq_of_lt hm, Nat.zero_add]

/-- Remainder of a flat index `a * K + m` with in-row offset `m < K`. -/
theorem flat_mod {a K m : ℕ} (hm : m < K) : (a * K + m) % K = m := by
  rw [Nat.add_comm, Nat.add_mul_mod_self_right, Nat.mod_eq_of_lt hm]

/-- A triple `(h, w, c)` of in-range coordinates gives a flat index
below `H * W * C`. -/
theorem flat_lt {H W C h w c : ℕ} (hh : h < H) (hw : w < W) (hc : c < C) :
    (h * W + w) * C + c < H * W * C := by
  have h1 : (h + 1) * W ≤ H * W := Nat.mul_le_mul_right W (Nat.succ_le_of_lt hh)
  have h2 : (h * W + w + 1) * C ≤ (H * W) * C := by
    refine Nat.mul_le_mul_right C ?_
    have : h * W + W ≤ H * W := by linarith [h1]
    omega
  calc (h * W + w) * C + c < (h * W + w) * C + C := by omega
    _ = (h * W + w + 1) * C := by ring
    _ ≤ (H * W) * C := h2
    _ = H * W * C := by ring

/-- `flipIndex` on the flat index of coordinates `(h, w, c)` flips the
row: it returns the flat index of `(H-1-h, w, c)`. -/
theorem flipIndex_flat {H W C h w c : ℕ} (hh : h < H) (hw : w < W)
    (hc : c < C) :
    flipIndex H W C ((h * W + w) * C + c) = ((H - 1 - h) * W + w) * C + c := by
  have hm : w * C + c < W * C := by
    have h1 : (w + 1) * C ≤ W * C := Nat.mul_le_mul_right C (Nat.succ_le_of_lt hw)
    have : w * C + C ≤ W * C := by linarith [h1]
    omega
  have hrep : (h * W + w) * C + c = h * (W * C) + (w * C + c) := by ring
  unfold flipIndex
  rw [hrep, flat_div hm, flat_mod hm]
  ring

/-- Coordinate form of every index below `H * W * C`. -/
theorem flat_surj {H W C j : ℕ} (hj : j < H * W * C) :
    ∃ h w c, h < H ∧ w < W ∧ c < C ∧ j = (h * W + w) * C + c := by
  have hC : 0 < C := by
    rcases Nat.eq_zero_or_pos C with h | h
    · subst h; rw [Nat.mul_zero] at hj; exact absurd hj (Nat.not_lt_zero j)
    · exact h
  have hW : 0 < W := by
    rcases Nat.eq_zero_or_pos W with h | h
    · subst h; rw [Nat.mul_zero, Nat.zero_mul] at hj
      exact absurd hj (Nat.not_lt_zero j)
    · exact h
  refine ⟨j / C / W, j / C % W, j % C, ?_, Nat.mod_lt _ hW, Nat.mod_lt _ hC, ?_⟩
  · have h1 : j / C < H * W := by
      rw [Nat.div_lt_iff_lt_mul hC]
      calc j < H * W * C := hj
        _ = H * W * C := rfl
    rw [Nat.div_lt_iff_lt_mul hW]
    exact h1
  · have e1 : j / C = (j / C / W) * W + j / C % W := by
      rw [Nat.mul_comm, Nat.div_add_mod]
    have e2 : j = j / C * C + j % C := by rw [Nat.mul_comm, Nat.div_add_mod]
    calc j = j / C * C + j % C := e2
      _ = ((j / C / W) * W + j / C % W) * C + j % C := by rw [← e1]

/-- The row flip keeps flat indices in range. -/
theorem flipIndex_lt {H W C j : ℕ} (hj : j < H * W * C) :
    flipIndex H W C j < H * W * C := by
  obtain ⟨h, w, c, hh, hw, hc, rfl⟩ := flat_surj hj
  rw [flipIndex_flat hh hw hc]
  exact flat_lt (by omega) hw hc

/-- The row flip is an involution on in-range flat indices. -/
theorem flipIndex_flipIndex {H W C j : ℕ} (hj : j < H * W * C) :
    flipIndex H W C (flipIndex H W C j) = j := by
  obtain ⟨h, w, c, hh, hw, hc, rfl⟩ := flat_surj hj
  rw [flipIndex_flat hh hw hc, flipIndex_flat (by omega) hw hc]
  have hsub : H - 1 - (H - 1 - h) = h := by omega
  rw [hsub]

/-- `getD` on a list built by `ofFn`, at an in-range index. -/
theorem ofFn_getD {α : Type} {n : ℕ} (g : Fin n → α) {j : ℕ} (hj : j < n)
    (d : α) : (List.ofFn g).getD j d = g ⟨j, hj⟩ := by
  rw [List.getD_eq_getElem _ _ (by simpa using hj), List.getElem_ofFn]

/-- Reduction of `loadImagePFM` once the magic token is known. -/
theorem loadImagePFM_eq_of_channels {f : PFMFile} {C : ℕ}
    (hC : channelsOf f.id = some C) :
    loadImagePFM f =
      if 0 ≤ f.scale then .error .bigEndianUnsupported
      else if f.body.length < f.H * f.W * C then .error .invalidPFM
      else .ok ⟨[f.H, f.W, C], "hwc",
        List.ofFn fun j : Fin (f.H * f.W * C) =>
          |f.scale| * f.body.getD (flipIndex f.H f.W C j) 0⟩ := by
  unfold loadImagePFM
  rw [hC]

/-- C6: for every PFM input whose header parses up to the scale token
with a scale value ≥ 0, the decoder fails with the unsupported-format
error ("big-endian PFM images are not supported") and returns no
tensor. -/
theorem loadImagePFM_rejects_nonneg_scale (f : PFMFile) (C : ℕ)
    (hC : channelsOf f.id = some C) (hs : 0 ≤ f.scale) :
    loadImagePFM f = .error .bigEndianUnsupported := by
  unfold loadImagePFM
  rw [hC]
  simp [hs]

/-- Witness for C6 at the concrete input `⟨"PF", 1, 1, 0, []⟩`. -/
theorem loadImagePFM_rejects_nonneg_scale_witness :
    loadImagePFM ⟨"PF", 1, 1, 0, []⟩ = .error .bigEndianUnsupported :=
  loadImagePFM_rejects_nonneg_scale ⟨"PF", 1, 1, 0, []⟩ 3 rfl le_rfl

/-- C7: for every PFM input with a valid header (magic and negative
scale) whose body holds fewer than `H*W*C` complete 4-byte words —
i.e. fewer than `H*W*C*4` bytes — the decoder fails with the
corrupt-data error ("invalid PFM image") and yields no tensor. -/
theorem loadImagePFM_truncated_body (f : PFMFile) (C : ℕ)
    (hC : channelsOf f.id = some C) (hs : f.scale < 0)
    (hlen : f.body.length < f.H * f.W * C) :
    loadImagePFM f = .error .invalidPFM := by
  unfold loadImagePFM
  rw [hC]
  simp [not_le.2 hs, hlen]

/-- Witness for C7 at the concrete input `⟨"PF", 1, 1, -1, []⟩`: a
1×1 3-channel image with an empty body. -/
theorem loadImagePFM_truncated_body_witness :
    loadImagePFM ⟨"PF", 1, 1, -1, []⟩ = .error .invalidPFM :=
  loadImagePFM_truncated_body ⟨"PF", 1, 1, -1, []⟩ 3 rfl
    (by norm_num) (by simp)

/-- C10: the decoder checks no positivity of the declared dimensions:
the input `⟨"PF", 0, 0, -1, []⟩` (width 0, height 0, negative scale,
empty body) decodes successfully to a tensor of shape `[0,0,3]` with
zero elements, violating the documented invariant `H>0 ∧ W>0` without
any error. -/
theorem loadImagePFM_accepts_zero_dims :
    ∃ t, loadImagePFM ⟨"PF", 0, 0, -1, []⟩ = .ok t ∧
      t.dims = [0, 0, 3] ∧ t.data.length = 0 := by
  unfold loadImagePFM
  norm_num [channelsOf]

/-- C4: for every PFM input whose header declares width `W`, height
`H`, channels `C` (via the magic) and a negative scale `s`, and whose
body is long enough, decoding succeeds and the sample stored for disk
row `h` (0 = bottom scanline), column `w`, channel `c` appears at
in-memory row `H-1-h` of the `[H,W,C]` tensor, multiplied by `|s|`. -/
theorem loadImagePFM_row_flip (f : PFMFile) (C : ℕ)
    (hC : channelsOf f.id = some C) (hs : f.scale < 0)
    (hlen : f.H * f.W * C ≤ f.body.length) :
    ∃ t, loadImagePFM f = .ok t ∧ t.dims = [f.H, f.W, C] ∧
      ∀ h w c, h < f.H → w < f.W → c < C →
        t.data.getD (((f.H - 1 - h) * f.W + w) * C + c) 0 =
          |f.scale| * f.body.getD ((h * f.W + w) * C + c) 0 := by
  rw [loadImagePFM_eq_of_channels hC, if_neg (not_le.2 hs),
    if_neg (Nat.not_lt.2 hlen)]
  refine ⟨_, rfl, rfl, ?_⟩
  intro h w c hh hw hc
  have hh' : f.H - 1 - h < f.H := by omega
  have hjm : ((f.H - 1 - h) * f.W + w) * C + c < f.H * f.W * C :=
    flat_lt hh' hw hc
  rw [ofFn_getD _ hjm]
  show |f.scale| *
      f.body.getD (flipIndex f.H f.W C (((f.H - 1 - h) * f.W + w) * C + c)) 0 =
    |f.scale| * f.body.getD ((h * f.W + w) * C + c) 0
  rw [flipIndex_flat hh' hw hc]
  have hsub : f.H - 1 - (f.H - 1 - h) = h := by omega
  rw [hsub]

/-- Witness for C4 at the input `⟨"PF", 1, 2, -2, [10,11,12,20,21,22]⟩`:
a 1×2, 3-channel image with scale `-2`. -/
theorem loadImagePFM_row_flip_witness :
    ∃ t, loadImagePFM ⟨"PF", 1, 2, -2, [10, 11, 12, 20, 21, 22]⟩ = .ok t ∧
      t.dims = [2, 1, 3] ∧
      ∀ h w c, h < 2 → w < 1 → c < 3 →
        t.data.getD (((2 - 1 - h) * 1 + w) * 3 + c) 0 =
          |(-2 : ℝ)| *
            ([10, 11, 12, 20, 21, 22] : List ℝ).getD ((h * 1 + w) * 3 + c) 0 :=
  loadImagePFM_row_flip ⟨"PF", 1, 2, -2, [10, 11, 12, 20, 21, 22]⟩ 3 rfl
    (by norm_num) (by simp)

/-- C3: encoding a `[H,W,3]` `hwc` tensor (`H>0`, `W>0`) with the PFM
encoder and decoding the result yields the original tensor exactly —
the decode-side multiplier is `|-1.0| = 1` because the encoder always
writes the scale literal `-1.0`, and the reader's row flip undoes the
writer's. -/
theorem pfm_roundtrip (t : Tensor) (H W : ℕ)
    (hdims : t.dims = [H, W, 3]) (hfmt : t.format = "hwc")
    (hH : 0 < H) (hW : 0 < W) (hlen : t.data.length = H * W * 3) :
    ∃ f, saveImagePFM t = .ok f ∧ loadImagePFM f = .ok t := by
  obtain ⟨dims, fmt, data⟩ := t
  simp only at hdims hfmt hlen
  subst hdims
  subst hfmt
  refine ⟨⟨"PF", W, H, -1.0,
    List.ofFn fun i : Fin (H * W * 3) => data.getD (flipIndex H W 3 i) 0⟩,
    ?_, ?_⟩
  · unfold saveImagePFM
    rw [if_neg (by simp [Tensor.ndims])]
    rfl
  · have hC3 : channelsOf (⟨"PF", W, H, -1.0,
        List.ofFn fun i : Fin (H * W * 3) =>
          data.getD (flipIndex H W 3 i) 0⟩ : PFMFile).id = some 3 := rfl
    rw [loadImagePFM_eq_of_channels hC3, if_neg (by norm_num),
      if_neg (by simp)]
    refine congrArg Except.ok ?_
    refine congrArg (Tensor.mk [H, W, 3] "hwc") ?_
    refine List.ext_getElem (by simp [hlen]) ?_
    intro j h1 h2
    have hj : j < H * W * 3 := by simpa using h1
    rw [List.getElem_ofFn]
    show |(-1.0 : ℝ)| *
        (List.ofFn fun i : Fin (H * W * 3) =>
          data.getD (flipIndex H W 3 i) 0).getD (flipIndex H W 3 j) 0 =
      data[j]
    rw [ofFn_getD _ (flipIndex_lt hj)]
    show |(-1.0 : ℝ)| *
        data.getD (flipIndex H W 3 (flipIndex H W 3 j)) 0 = data[j]
    rw [flipIndex_flipIndex hj, List.getD_eq_getElem _ _ h2]
    norm_num

/-- Witness for C3 at the concrete 1×1 tensor with data `[5, 6, 7]`. -/
theorem pfm_roundtrip_witness :
    ∃ f, saveImagePFM ⟨[1, 1, 3], "hwc", [5, 6, 7]⟩ = .ok f ∧
      loadImagePFM f = .ok ⟨[1, 1, 3], "hwc", [5, 6, 7]⟩ :=
  pfm_roundtrip ⟨[1, 1, 3], "hwc", [5, 6, 7]⟩ 1 1 rfl rfl Nat.one_pos
    Nat.one_pos (by simp)

/-- The accumulation loop computes, from any starting pair, the sum of
`log2` over the luminances above `1e-7` and their number; luminances at
or below `1e-7` contribute to neither component. -/
theorem foldl_accumStep (l : List ℝ) (s : ℝ) (n : ℕ) :
    l.foldl accumStep (s, n) =
      (s + ((l.filter fun L => 1e-7 < L).map (Real.logb 2)).sum,
       n + (l.filter fun L => 1e-7 < L).length) := by
  induction l generalizing s n with
  | nil => simp
  | cons a l ih =>
    rw [List.foldl_cons]
    by_cases ha : (1e-7 : ℝ) < a
    · rw [show accumStep (s, n) a = (s + Real.logb 2 a, n + 1) from by
        simp [accumStep, ha], ih]
      rw [List.filter_cons, if_pos (by simpa using ha)]
      simp only [List.map_cons, List.sum_cons, List.length_cons]
      exact Prod.ext (by ring) (by omega)
    · rw [show accumStep (s, n) a = (s, n) from by simp [accumStep, ha], ih]
      rw [List.filter_cons, if_neg (by simpa using ha)]

/-- C2: whenever at least one pixel's luminance exceeds `1e-7`, the
exposure estimate is `0.18 / 2^(sum/count)`, where `sum` adds `log2 L`
over exactly the pixels with `L > 1e-7` and `count` is their number;
pixels at or below the epsilon enter neither the sum nor the count. -/
theorem autoexposure_log_average (input : Data2D)
    (hx : ((pixelList input).filter fun L => 1e-7 < L) ≠ []) :
    autoexposure input =
      0.18 / (2 : ℝ) ^
        ((((pixelList input).filter fun L => 1e-7 < L).map
            (Real.logb 2)).sum /
          ((((pixelList input).filter fun L => 1e-7 < L).length : ℕ) : ℝ)) := by
  have hacc := foldl_accumStep (pixelList input) 0 0
  have hpos : 0 < ((pixelList input).filter fun L => 1e-7 < L).length :=
    List.length_pos.2 hx
  unfold autoexposure accumulate
  rw [hacc]
  simp [hpos]

/-- C8: when every pixel's luminance is at or below `1e-7` (in
particular on an all-black image) the estimate is exactly `1`. -/
theorem autoexposure_all_black (input : Data2D)
    (hb : ∀ L ∈ pixelList input, L ≤ 1e-7) :
    autoexposure input = 1 := by
  have hfil : ((pixelList input).filter fun L => 1e-7 < L) = [] := by
    rw [List.filter_eq_nil_iff]
    intro a ha
    simpa using not_lt.2 (hb a ha)
  have hacc := foldl_accumStep (pixelList input) 0 0
  rw [hfil] at hacc
  unfold autoexposure accumulate
  rw [hacc]
  simp

/-- Witness for C2 on the 1×1 view whose single pixel is `(1,1,1)`
(luminance exactly `1`, which exceeds the epsilon). -/
theorem autoexposure_log_average_witness :
    (((pixelList ⟨1, 1, fun _ _ => ((1 : ℝ), (1 : ℝ), (1 : ℝ))⟩).filter
        fun L => 1e-7 < L) ≠ []) ∧
    autoexposure ⟨1, 1, fun _ _ => ((1 : ℝ), (1 : ℝ), (1 : ℝ))⟩ =
      0.18 / (2 : ℝ) ^
        ((((pixelList ⟨1, 1, fun _ _ => ((1 : ℝ), (1 : ℝ), (1 : ℝ))⟩).filter
            fun L => 1e-7 < L).map (Real.logb 2)).sum /
          ((((pixelList ⟨1, 1, fun _ _ =>
              ((1 : ℝ), (1 : ℝ), (1 : ℝ))⟩).filter
            fun L => 1e-7 < L).length : ℕ) : ℝ)) := by
  have hne : ((pixelList ⟨1, 1, fun _ _ =>
      ((1 : ℝ), (1 : ℝ), (1 : ℝ))⟩).filter fun L => 1e-7 < L) ≠ [] := by
    norm_num [pixelList, pixelLum, luminance, List.filter]
  exact ⟨hne, autoexposure_log_average _ hne⟩

/-- Witness for C8 on the all-black 1×1 view. -/
theorem autoexposure_all_black_witness :
    autoexposure ⟨1, 1, fun _ _ => ((0 : ℝ), (0 : ℝ), (0 : ℝ))⟩ = 1 := by
  have hb : ∀ L ∈ pixelList ⟨1, 1, fun _ _ =>
      ((0 : ℝ), (0 : ℝ), (0 : ℝ))⟩, L ≤ 1e-7 := by
    norm_num [pixelList, pixelLum, luminance]
  exact autoexposure_all_black _ hb

/-- C9: for every filename whose last `'.'` is its final character,
extension extraction succeeds with the empty string, and both `load`
and `save` on it fail with the "image format is not supported" error
rather than the "filename has no extension" error. -/
theorem trailing_dot_gives_empty_extension (cs : List Char) (t : Tensor)
    (contents : PFMFile) :
    fileExtensionOf (String.mk (cs ++ ['.'])) = .ok "" ∧
    loadImage (String.mk (cs ++ ['.'])) contents =
      .error .unsupportedFormat ∧
    saveImage t (String.mk (cs ++ ['.'])) = .error .unsupportedFormat := by
  have hext : extAfterLastDot (cs ++ ['.']) = some [] := by
    induction cs with
    | nil => rfl
    | cons c cs ih => simp [extAfterLastDot, ih]
  have hfe : fileExtensionOf (String.mk (cs ++ ['.'])) = .ok "" := by
    unfold fileExtensionOf
    rw [show (String.mk (cs ++ ['.'])).toList = cs ++ ['.'] from rfl, hext]
  refine ⟨hfe, ?_, ?_⟩
  · unfold loadImage
    rw [hfe]
    simp
  · unfold saveImage
    rw [hfe]
    simp

/-- C1 (code bug, `image_io.cpp:219-220`): saving to a filename with
the simple-float extension `"pfm"` is routed to the byte-format (PPM)
encoder, not to `saveImagePFM`.  At the 1×1 all-ones tensor and
filename `"a.pfm"`, `saveImage` produces the PPM file with byte body
`[255,255,255]`, while `saveImagePFM` would produce the PFM file with
float body `[1,1,1]`; the two outputs are files of different formats
(distinct `FileData` constructors), so the dispatcher does not write
the bytes the PFM encoder would write. -/
theorem saveImage_pfm_routes_to_ppm :
    saveImage ⟨[1, 1, 3], "hwc", [1, 1, 1]⟩ "a.pfm" =
      .ok (.ppm ⟨1, 1, 255, [255, 255, 255]⟩) ∧
    saveImagePFM ⟨[1, 1, 3], "hwc", [1, 1, 1]⟩ =
      .ok ⟨"PF", 1, 1, -1.0, [1, 1, 1]⟩ ∧
    (∀ p f, FileData.ppm p ≠ FileData.pfm f) := by
  have hg : gammaByte 1 = 255 := by
    unfold gammaByte cIntTrunc
    rw [Real.one_rpow]
    norm_num
  have hppm : saveImagePPM ⟨[1, 1, 3], "hwc", [1, 1, 1]⟩ =
      .ok ⟨1, 1, 255, [255, 255, 255]⟩ := by
    unfold saveImagePPM
    rw [if_neg (by simp [Tensor.ndims])]
    refine congrArg Except.ok ?_
    refine congrArg (PPMFile.mk 1 1 255) ?_
    show List.ofFn (fun k : Fin 3 =>
        gammaByte (([(1 : ℝ), 1, 1]).getD (k : ℕ) 0)) = [255, 255, 255]
    rw [show List.ofFn (fun k : Fin 3 =>
        gammaByte (([(1 : ℝ), 1, 1]).getD (k : ℕ) 0)) =
      [gammaByte 1, gammaByte 1, gammaByte 1] from rfl, hg]
  refine ⟨?_, ?_, fun p f h => FileData.noConfusion h⟩
  · unfold saveImage
    rw [show fileExtensionOf "a.pfm" = .ok "pfm" from rfl]
    simp [hppm]
  · unfold saveImagePFM
    rw [if_neg (by simp [Tensor.ndims])]
    rfl

end oidn
